import Mathlib

/-!
Verification development for the hybrid retrieval core of the
japan_dashboard_stat_search repository (src/src/retriever.py, with the
embedding wrapper in src/src/encoder.py).

Strings are modelled as `List Char`; Python float scores are modelled as
exact rationals (`Rat`).  Calls to external services (the embedding API,
the FAISS index search, the BM25/TF-IDF scorers, the GitHub download)
are modelled as explicit inputs: an `Except Unit _` input stands for a
call that either returns a value or raises, mirroring exactly where the
Python code wraps such calls in try/except.  The two library sorts whose
tie order the Python code leaves unspecified (numpy `argsort` followed
by reversal at retriever.py:293, pandas `sort_values` at
retriever.py:240) are modelled as a deterministic descending sort; no
theorem below depends on the order of equal-score entries, except where
explicitly discussed.
-/

namespace StatSearch

/-- Lowercasing of a Python string (`str.lower()` on the texts handled here). -/
def lower (s : List Char) : List Char := s.map Char.toLower

/-- Does `n` occur at the head of `hay`? (helper for the Python `in` operator). -/
def leadsWith : List Char → List Char → Bool
  | [], _ => true
  | _ :: _, [] => false
  | a :: as, b :: bs => a == b && leadsWith as bs

/-- Python substring test `n in hay`. -/
def containsSub (n : List Char) : List Char → Bool
  | [] => n.isEmpty
  | b :: bs => leadsWith n (b :: bs) || containsSub n bs

/-- Helper for `splitWs`: accumulates the current token (reversed). -/
def splitWsAux : List Char → List Char → List (List Char)
  | [], acc => if acc.isEmpty then [] else [acc.reverse]
  | c :: rest, acc =>
    if c.isWhitespace then
      if acc.isEmpty then splitWsAux rest [] else acc.reverse :: splitWsAux rest []
    else splitWsAux rest (c :: acc)

/-- Python `str.split()` with no argument: split on whitespace runs, no empty tokens. -/
def splitWs (s : List Char) : List (List Char) := splitWsAux s []

/-- The distinct lowercased whitespace tokens of a string, in first-occurrence
order: Python `set(s.lower().split())` (retriever.py:230,234). -/
def tokensOf (s : List Char) : List (List Char) := (splitWs (lower s)).dedup

/-- Python `len(q_words & fw)` at retriever.py:235: the number of distinct
tokens of `f` that are also tokens of `q`. -/
def interCount (q f : List Char) : Nat :=
  ((tokensOf f).filter (fun t => t ∈ tokensOf q)).length

/-- One row of the corpus DataFrame, restricted to the columns the retrieval
core reads.  `group_code` is the derived column added at retriever.py:42. -/
structure Row where
  koumoku_name_full : List Char
  bunya_name : List Char
  chuubunrui_name : List Char
  shoubunrui_name : List Char
  definition : List Char
  stat_name : List Char
  koumoku_code : List Char
  group_code : List Char
deriving DecidableEq, Repr

def defaultRow : Row := ⟨[], [], [], [], [], [], [], []⟩

/-- Positional row access, `self.df.iloc[idx]` (retriever.py:225,311). -/
def rowAt (df : List Row) (i : Nat) : Row := df.getD i defaultRow

/-- One entry of the list returned by `hybrid_search` (retriever.py:318-326). -/
structure Entry where
  koumoku_name_full : List Char
  bunya_name : List Char
  chuubunrui_name : List Char
  shoubunrui_name : List Char
  koumoku_code : List Char
  group_code : List Char
  score : Rat
deriving DecidableEq, Repr

/-- The six text columns scored by `rerank_results` (retriever.py:223). -/
def textFields (r : Row) : List (List Char) :=
  [r.koumoku_name_full, r.bunya_name, r.chuubunrui_name, r.shoubunrui_name,
   r.definition, r.stat_name]

/-- retriever.py:227-228: `contain_mask.sum(axis=1) * 2` for one row — twice
the number of text fields whose lowercased value contains the lowercased query. -/
def containScore (q : List Char) (r : Row) : Nat :=
  ((textFields r).filter (fun f => containsSub (lower q) (lower f))).length * 2

/-- retriever.py:231-237: the word-overlap score of one row. -/
def overlapScore (q : List Char) (r : Row) : Nat :=
  ((textFields r).map (fun f => interCount q f)).sum

/-- retriever.py:238: `total = contain_score.add(overlap_score)` for one row. -/
def rerankScore (q : List Char) (r : Row) : Nat :=
  containScore q r + overlapScore q r

/-- Stable descending sort by a key, used to model the descending sorts of the
source (Python `list.sort(key=..., reverse=True)` is stable; the numpy/pandas
sorts are modelled with the same function, see the file comment). -/
def sortKeyDesc {α : Type} {β : Type} [LinearOrder β] (f : α → β) (l : List α) : List α :=
  List.insertionSort (fun a b => f b ≤ f a) l

/-- Python `max(list, default=d)` (retriever.py:277,283): the default applies
only to an empty list. -/
def pyMax (l : List Rat) (dflt : Rat) : Rat :=
  match l with
  | [] => dflt
  | a :: t => t.foldl max a

/-- retriever.py:279,285: `score / max_s if max_s > 0 else 0`. -/
def normalizeStep (maxS s : Rat) : Rat := if 0 < maxS then s / maxS else 0

/-- One update of the `all_candidates` dict (retriever.py:274,280,286):
`all_candidates[idx] = all_candidates.get(idx, 0) + add`.  The dict is modelled
as an association list in insertion order, matching Python dict iteration. -/
def updCand (m : List (Nat × Rat)) (i : Nat) (add : Rat) : List (Nat × Rat) :=
  match m with
  | [] => [(i, add)]
  | (j, s) :: t => if j = i then (j, s + add) :: t else (j, s) :: updCand t i add

/-- Python `all_candidates.get(i, 0)` (retriever.py:274,280,286,325). -/
def getV (m : List (Nat × Rat)) (i : Nat) : Rat :=
  match m with
  | [] => 0
  | (j, s) :: t => if j = i then s else getV t i

/-- The score fusion of retriever.py:268-286: weighted dense scores plus
max-normalized BM25/TF-IDF scores, each scaled by `keyword_weight`. -/
def fuseMap (vec bm tf : List (Nat × Rat)) (w : Rat) : List (Nat × Rat) :=
  let kw := (1 - w) / 2
  let m1 := vec.foldl (fun m p => updCand m p.1 (p.2 * w)) []
  let maxB := pyMax (bm.map Prod.snd) 1
  let m2 := bm.foldl (fun m p => updCand m p.1 (normalizeStep maxB p.2 * kw)) m1
  let maxT := pyMax (tf.map Prod.snd) 1
  tf.foldl (fun m p => updCand m p.1 (normalizeStep maxT p.2 * kw)) m2

/-- retriever.py:288-296: sort the fused candidates by descending score and
keep the first `top_k * 2` row indices. -/
def candidateIndices (vec bm tf : List (Nat × Rat)) (w : Rat) (top_k : Nat) : List Nat :=
  ((sortKeyDesc Prod.snd (fuseMap vec bm tf w)).map Prod.fst).take (top_k * 2)

/-- retriever.py:217-245: rank the candidate row indices by descending
`rerankScore` and truncate to `top_k` (the caller passes `min(top_k, 40)`). -/
def rerank_results (df : List Row) (q : List Char) (cand : List Nat) (top_k : Nat) :
    List Nat :=
  (sortKeyDesc (fun i => rerankScore q (rowAt df i)) cand).take top_k

/-- retriever.py:305-328: walk the re-ranked indices, emitting each row whose
`group_code` has not been emitted yet in this call. -/
def dedupLoop (df : List Row) (fused : List (Nat × Rat)) :
    List Nat → List (List Char) → List Entry
  | [], _ => []
  | idx :: rest, processed =>
    let item := rowAt df idx
    if item.group_code ∈ processed then
      dedupLoop df fused rest processed
    else
      { koumoku_name_full := item.koumoku_name_full
        bunya_name := item.bunya_name
        chuubunrui_name := item.chuubunrui_name
        shoubunrui_name := item.shoubunrui_name
        koumoku_code := item.koumoku_code
        group_code := item.group_code
        score := getV fused idx } :: dedupLoop df fused rest (item.group_code :: processed)

/-- The re-ranked candidate list of a `hybrid_search` call
(retriever.py:300-301), as a function of the three sub-search result lists. -/
def rerankedIndices (df : List Row) (q : List Char) (top_k : Nat) (w : Rat)
    (vec bm tf : List (Nat × Rat)) : List Nat :=
  rerank_results df q (candidateIndices vec bm tf w top_k) (min top_k 40)

/-- The body of `hybrid_search` from score fusion onward
(retriever.py:268-337), which can no longer raise in the source. -/
def hybrid_core (df : List Row) (q : List Char) (top_k : Nat) (w : Rat)
    (vec bm tf : List (Nat × Rat)) : List Entry :=
  dedupLoop df (fuseMap vec bm tf w) (rerankedIndices df q top_k w vec bm tf) []

/-- encoder.py:62-109 `EmbeddingConfig.get_embeddings`: the whole body is in a
try/except returning an empty array, and an empty response is also mapped to
an empty array.  The outcome of the external `litellm.embedding` call is the
`resp` input (`.error` = the call raised). -/
def get_embeddings (resp : Except Unit (List (List Rat))) : List (List Rat) :=
  match resp with
  | .error _ => []
  | .ok es => if es.isEmpty then [] else es

/-- retriever.py:142-166 `vector_search`.  There is no try/except in this
method: an uninitialized index or an empty embedding yields `.ok []`, but an
exception raised by `self.faiss_index.search` (the `faissOut` input)
propagates to the caller.  FAISS results with index -1 are dropped. -/
def vector_search (faissLoaded : Bool) (embedResp : Except Unit (List (List Rat)))
    (faissOut : Except Unit (List (Int × Rat))) : Except Unit (List (Nat × Rat)) :=
  if faissLoaded = false then .ok []
  else if (get_embeddings embedResp).isEmpty then .ok []
  else
    match faissOut with
    | .error e => .error e
    | .ok pairs =>
      .ok (((pairs.filter (fun p => p.1 != -1)).map (fun p => (p.1.toNat, p.2))))

/-- retriever.py:168-191 `keyword_search`: the body is wrapped in try/except
returning `[]`.  `scoresOut` is the outcome of `self.bm25.get_scores` (one
score per corpus row); the per-row scores are enumerated, sorted by descending
score (Python stable sort) and truncated. -/
def keyword_search (bm25Loaded : Bool) (scoresOut : Except Unit (List Rat))
    (top_k : Nat) : List (Nat × Rat) :=
  if bm25Loaded = false then []
  else
    match scoresOut with
    | .error _ => []
    | .ok scores => (sortKeyDesc Prod.snd scores.enum).take top_k

/-- retriever.py:193-215 `tfidf_search`: same shape as `keyword_search` with
cosine scores. -/
def tfidf_search (tfLoaded : Bool) (scoresOut : Except Unit (List Rat))
    (top_k : Nat) : List (Nat × Rat) :=
  if tfLoaded = false then []
  else
    match scoresOut with
    | .error _ => []
    | .ok scores => (sortKeyDesc Prod.snd scores.enum).take top_k

/-- retriever.py:250-341 `hybrid_search`.  The three sub-searches run on a
thread pool; `f_vec.result()` re-raises any exception from `vector_search`
inside the outer try, whose handler returns `[]` (retriever.py:339-341).
`keyword_search` and `tfidf_search` catch internally and cannot raise. -/
def hybrid_search (df : List Row) (q : List Char) (top_k : Nat) (w : Rat)
    (faissLoaded : Bool) (embedResp : Except Unit (List (List Rat)))
    (faissOut : Except Unit (List (Int × Rat)))
    (bm25Loaded : Bool) (bmScores : Except Unit (List Rat))
    (tfLoaded : Bool) (tfScores : Except Unit (List Rat)) : List Entry :=
  let bm := keyword_search bm25Loaded bmScores (top_k * 2)
  let tf := tfidf_search tfLoaded tfScores (top_k * 2)
  match vector_search faissLoaded embedResp faissOut with
  | .error _ => []
  | .ok vec => hybrid_core df q top_k w vec bm tf

/-- A corpus row as read from the parquet file, before the derived
`group_code` column is added (retriever.py:36-45). -/
structure RawRow where
  koumoku_name_full : List Char
  bunya_name : List Char
  chuubunrui_name : List Char
  shoubunrui_name : List Char
  definition : List Char
  stat_name : List Char
  koumoku_code : List Char
deriving DecidableEq, Repr

/-- retriever.py:42: `group_code` is the first 5 characters of `koumoku_code`. -/
def addGroupCode (r : RawRow) : Row :=
  { koumoku_name_full := r.koumoku_name_full
    bunya_name := r.bunya_name
    chuubunrui_name := r.chuubunrui_name
    shoubunrui_name := r.shoubunrui_name
    definition := r.definition
    stat_name := r.stat_name
    koumoku_code := r.koumoku_code
    group_code := r.koumoku_code.take 5 }

/-- The mutable fields of `HybridRetriever` (retriever.py:65-71); the index
objects are reduced to presence flags since no claim inspects their content. -/
structure RetState where
  df : Option (List Row)
  faiss_index : Option Unit
  bm25 : Option Unit
  tfidf : Option Unit
deriving DecidableEq, Repr

/-- retriever.py:20-60 `load_db_from_github`: the whole body is in a
try/except returning `(None, None)`.  `outcome` is the combined result of the
download/unzip/parse steps (`.error` = any of them raised, including a zip
member missing at retriever.py:32-33). -/
def load_db_from_github (outcome : Except Unit (List RawRow × Unit)) :
    Option (List Row) × Option Unit :=
  match outcome with
  | .error _ => (none, none)
  | .ok (rows, fi) => (some (rows.map addGroupCode), some fi)

/-- retriever.py:91-140 `_build_keyword_indices`: the whole body is in a
try/except that only logs, so on failure the state is left as it was.  The
load-or-build outcome for the two lexical artifacts is the `kw` input. -/
def build_keyword_indices (kw : Except Unit (Unit × Unit)) (s : RetState) : RetState :=
  match kw with
  | .error _ => s
  | .ok (b, t) => { s with bm25 := some b, tfidf := some t }

/-- retriever.py:73-89 `load_vector_database`: returns immediately when both
the DataFrame and the dense index are present; otherwise fetches, stores what
it got, and reports success as a Bool.  Every fallible step it calls catches
its own exceptions, so the method itself always returns. -/
def load_vector_database (outcome : Except Unit (List RawRow × Unit))
    (kw : Except Unit (Unit × Unit)) (s : RetState) : RetState × Bool :=
  if s.df.isSome && s.faiss_index.isSome then (s, true)
  else
    let dfi := load_db_from_github outcome
    let s1 := { s with df := dfi.1, faiss_index := dfi.2 }
    if dfi.1.isNone || dfi.2.isNone then (s1, false)
    else (build_keyword_indices kw s1, true)

/-- The key list (Python dict key order) of a candidate map. -/
def keysOf (m : List (Nat × Rat)) : List Nat := m.map Prod.fst

/-- Insertion-order accumulation of the distinct keys of a sequence. -/
def keyAcc (ks : List Nat) (acc : List Nat) : List Nat :=
  ks.foldl (fun a k => if k ∈ a then a else a ++ [k]) acc

/-- The total raw dense-score mass a row index receives from the vector
result list (retriever.py:273-274, before the `vector_weight` factor). -/
def vecSumAt (vec : List (Nat × Rat)) (i : Nat) : Rat :=
  ((vec.filter (fun p => p.1 = i)).map Prod.snd).sum

/-- The total max-normalized score mass a row index receives from one lexical
result list (retriever.py:277-286, before the `keyword_weight` factor). -/
def lexSumAt (l : List (Nat × Rat)) (i : Nat) : Rat :=
  ((l.filter (fun p => p.1 = i)).map
    (fun p => normalizeStep (pyMax (l.map Prod.snd) 1) p.2)).sum

/-- The number of fused candidates whose fused score strictly exceeds that of
row `r`: the (tie-free) rank of `r` in the fused ordering of
retriever.py:288-296. -/
def beatsCount (vec bm tf : List (Nat × Rat)) (w : Rat) (r : Nat) : Nat :=
  ((fuseMap vec bm tf w).filter
    (fun p => getV (fuseMap vec bm tf w) r < p.2)).length

/-- The re-rank score written the way the specification words it: a per-field
sum of a 2-point substring bonus plus the distinct-common-token count. -/
def rerankScoreSpec (q : List Char) (r : Row) : Nat :=
  ((textFields r).map
    (fun f => (if containsSub (lower q) (lower f) then 2 else 0) + interCount q f)).sum

/-- A tiny concrete corpus used to evaluate the theorems on closed inputs. -/
def exRow1 : Row :=
  { koumoku_name_full := ['a'], bunya_name := ['b'], chuubunrui_name := ['c']
    shoubunrui_name := ['d'], definition := ['e'], stat_name := ['f']
    koumoku_code := ['A'], group_code := ['A'] }

def exRow2 : Row :=
  { koumoku_name_full := ['g'], bunya_name := ['h'], chuubunrui_name := ['i']
    shoubunrui_name := ['j'], definition := ['k'], stat_name := ['l']
    koumoku_code := ['B'], group_code := ['B'] }

def exDf : List Row := [exRow1, exRow2]

def exQ : List Char := ['a']

/-- A retriever state with the corpus and the dense index already loaded. -/
def exLoadedState : RetState :=
  { df := some exDf, faiss_index := some (), bm25 := none, tfidf := none }

/-- A freshly constructed retriever state (retriever.py:65-71). -/
def exEmptyState : RetState :=
  { df := none, faiss_index := none, bm25 := none, tfidf := none }

/-! Helper lemmas about the deduplication walk (retriever.py:305-328). -/

theorem dedupLoop_group_not_processed (df : List Row) (fused : List (Nat × Rat)) :
    ∀ (idxs : List Nat) (processed : List (List Char)),
      ∀ e ∈ dedupLoop df fused idxs processed, e.group_code ∉ processed := by
  intro idxs
  induction idxs with
  | nil => intro processed e he; simp [dedupLoop] at he
  | cons idx rest ih =>
    intro processed e he
    rw [dedupLoop] at he
    by_cases h : (rowAt df idx).group_code ∈ processed
    · rw [if_pos h] at he
      exact ih processed e he
    · rw [if_neg h] at he
      rcases List.mem_cons.1 he with he | he
      · subst he; exact h
      · have := ih _ e he
        intro hmem
        exact this (List.mem_cons_of_mem _ hmem)

theorem dedupLoop_groups_nodup (df : List Row) (fused : List (Nat × Rat)) :
    ∀ (idxs : List Nat) (processed : List (List Char)),
      ((dedupLoop df fused idxs processed).map Entry.group_code).Nodup := by
  intro idxs
  induction idxs with
  | nil => intro processed; simp [dedupLoop]
  | cons idx rest ih =>
    intro processed
    rw [dedupLoop]
    by_cases h : (rowAt df idx).group_code ∈ processed
    · rw [if_pos h]; exact ih processed
    · rw [if_neg h]
      simp only [List.map_cons]
      refine List.nodup_cons.2 ⟨?_, ih _⟩
      intro hmem
      rcases List.mem_map.1 hmem with ⟨e, he, hge⟩
      have := dedupLoop_group_not_processed df fused rest _ e he
      exact this (by rw [hge]; exact List.mem_cons_self _ _)

theorem dedupLoop_count_zero (df : List Row) (fused : List (Nat × Rat))
    (idxs : List Nat) (processed : List (List Char)) (g : List Char)
    (hg : g ∈ processed) :
    ((dedupLoop df fused idxs processed).filter (fun e => e.group_code = g)).length = 0 := by
  rw [List.length_eq_zero]
  rw [List.filter_eq_nil_iff]
  intro e he
  have := dedupLoop_group_not_processed df fused idxs processed e he
  simp only [decide_eq_true_eq]
  intro hge
  exact this (hge ▸ hg)

theorem dedupLoop_count_one (df : List Row) (fused : List (Nat × Rat)) :
    ∀ (idxs : List Nat) (processed : List (List Char)) (g : List Char),
      g ∉ processed → g ∈ idxs.map (fun i => (rowAt df i).group_code) →
      ((dedupLoop df fused idxs processed).filter (fun e => e.group_code = g)).length = 1 := by
  intro idxs
  induction idxs with
  | nil => intro processed g _ hmem; simp at hmem
  | cons idx rest ih =>
    intro processed g hg hmem
    rw [List.map_cons] at hmem
    rw [dedupLoop]
    by_cases h : (rowAt df idx).group_code ∈ processed
    · rw [if_pos h]
      have hne : g ≠ (rowAt df idx).group_code := fun he => hg (he ▸ h)
      rcases List.mem_cons.1 hmem with he | he
      · exact absurd he hne
      · exact ih processed g hg he
    · rw [if_neg h]
      by_cases hge : g = (rowAt df idx).group_code
      · subst hge
        rw [List.filter_cons]
        rw [if_pos (by simp)]
        rw [List.length_cons]
        rw [dedupLoop_count_zero df fused rest _ _ (List.mem_cons_self _ _)]
      · rw [List.filter_cons]
        rw [if_neg (by simp only [decide_eq_true_eq]; exact fun hc => hge hc.symm)]
        have hmem2 : g ∈ rest.map (fun i => (rowAt df i).group_code) := by
          rcases List.mem_cons.1 hmem with he | he
          · exact absurd he hge
          · exact he
        have hg2 : g ∉ (rowAt df idx).group_code :: processed := by
          intro hc
          rcases List.mem_cons.1 hc with hc | hc
          · exact hge hc
          · exact hg hc
        exact ih _ g hg2 hmem2

theorem dedupLoop_length_le (df : List Row) (fused : List (Nat × Rat)) :
    ∀ (idxs : List Nat) (processed : List (List Char)),
      (dedupLoop df fused idxs processed).length ≤ idxs.length := by
  intro idxs
  induction idxs with
  | nil => intro processed; simp [dedupLoop]
  | cons idx rest ih =>
    intro processed
    rw [dedupLoop]
    by_cases h : (rowAt df idx).group_code ∈ processed
    · rw [if_pos h]
      exact Nat.le_succ_of_le (ih processed)
    · rw [if_neg h]
      simpa using Nat.succ_le_succ (ih _)

/-! Helper lemmas about the modelled sorts and the top-k truncations. -/

theorem sortKeyDesc_length {α β : Type} [LinearOrder β] (f : α → β) (l : List α) :
    (sortKeyDesc f l).length = l.length :=
  (List.perm_insertionSort _ l).length_eq

theorem rerank_results_length_le (df : List Row) (q : List Char)
    (cand : List Nat) (top_k : Nat) :
    (rerank_results df q cand top_k).length ≤ top_k := by
  rw [rerank_results]
  rw [List.length_take]
  exact Nat.min_le_left _ _

theorem hybrid_core_length_le (df : List Row) (q : List Char) (top_k : Nat)
    (w : Rat) (vec bm tf : List (Nat × Rat)) :
    (hybrid_core df q top_k w vec bm tf).length ≤ min top_k 40 := by
  rw [hybrid_core]
  calc (dedupLoop df (fuseMap vec bm tf w) (rerankedIndices df q top_k w vec bm tf) []).length
      ≤ (rerankedIndices df q top_k w vec bm tf).length := dedupLoop_length_le _ _ _ _
    _ ≤ min top_k 40 := rerank_results_length_le _ _ _ _

/-! Helper lemmas about the fused candidate dictionary (retriever.py:268-296). -/

theorem getV_updCand (m : List (Nat × Rat)) (j i : Nat) (x : Rat) :
    getV (updCand m j x) i = if j = i then getV m i + x else getV m i := by
  induction m with
  | nil => by_cases h : j = i <;> simp [updCand, getV, h]
  | cons p t ih =>
    obtain ⟨k, s⟩ := p
    by_cases hk : k = j
    · subst hk
      by_cases h : k = i <;> simp [updCand, getV, h]
    · by_cases hki : k = i
      · subst hki
        have hji : ¬j = k := fun h => hk h.symm
        simp [updCand, getV, hk, hji]
      · simp [updCand, getV, hk, hki, ih]

theorem getV_foldl (f : Nat × Rat → Rat) (i : Nat) :
    ∀ (l m : List (Nat × Rat)),
      getV (l.foldl (fun acc p => updCand acc p.1 (f p)) m) i
        = getV m i + ((l.filter (fun p => p.1 = i)).map f).sum := by
  intro l
  induction l with
  | nil => intro m; simp
  | cons p t ih =>
    intro m
    rw [List.foldl_cons, ih, getV_updCand, List.filter_cons]
    by_cases h : p.1 = i
    · rw [if_pos h, if_pos (by simp [h])]
      rw [List.map_cons, List.sum_cons]
      ring
    · rw [if_neg h, if_neg (by simp [h])]

theorem getV_fuseMap (vec bm tf : List (Nat × Rat)) (w : Rat) (i : Nat) :
    getV (fuseMap vec bm tf w) i
      = ((vec.filter (fun p => p.1 = i)).map (fun p => p.2 * w)).sum
        + ((bm.filter (fun p => p.1 = i)).map
            (fun p => normalizeStep (pyMax (bm.map Prod.snd) 1) p.2 * ((1 - w) / 2))).sum
        + ((tf.filter (fun p => p.1 = i)).map
            (fun p => normalizeStep (pyMax (tf.map Prod.snd) 1) p.2 * ((1 - w) / 2))).sum := by
  show getV ((fuseMap vec bm tf w)) i = _
  rw [fuseMap]
  rw [getV_foldl, getV_foldl, getV_foldl]
  show getV ([] : List (Nat × Rat)) i + _ + _ + _ = _
  rw [getV]
  ring

theorem keysOf_updCand (m : List (Nat × Rat)) (j : Nat) (x : Rat) :
    keysOf (updCand m j x)
      = if j ∈ keysOf m then keysOf m else keysOf m ++ [j] := by
  induction m with
  | nil => simp [updCand, keysOf]
  | cons p t ih =>
    obtain ⟨k, s⟩ := p
    by_cases hk : k = j
    · subst hk; simp [updCand, keysOf]
    · have hjk : ¬j = k := fun h => hk h.symm
      have hkeys : keysOf ((k, s) :: t) = k :: keysOf t := rfl
      rw [updCand, if_neg hk]
      show k :: keysOf (updCand t j x) = _
      rw [ih, hkeys]
      by_cases hj : j ∈ keysOf t
      · rw [if_pos hj, if_pos (List.mem_cons_of_mem _ hj)]
      · rw [if_neg hj,
          if_neg (by rw [List.mem_cons]; rintro (h | h); exacts [hjk h, hj h])]
        rfl

theorem keysOf_foldl (f : Nat × Rat → Rat) :
    ∀ (l m : List (Nat × Rat)),
      keysOf (l.foldl (fun acc p => updCand acc p.1 (f p)) m)
        = keyAcc (l.map Prod.fst) (keysOf m) := by
  intro l
  induction l with
  | nil => intro m; simp [keyAcc]
  | cons p t ih =>
    intro m
    rw [List.foldl_cons, ih, keysOf_updCand, List.map_cons]
    rfl

theorem keysOf_fuseMap (vec bm tf : List (Nat × Rat)) (w : Rat) :
    keysOf (fuseMap vec bm tf w)
      = keyAcc (tf.map Prod.fst)
          (keyAcc (bm.map Prod.fst) (keyAcc (vec.map Prod.fst) [])) := by
  rw [fuseMap]
  rw [keysOf_foldl, keysOf_foldl, keysOf_foldl]
  rfl

theorem keysOf_updCand_nodup (m : List (Nat × Rat)) (j : Nat) (x : Rat)
    (h : (keysOf m).Nodup) : (keysOf (updCand m j x)).Nodup := by
  rw [keysOf_updCand]
  by_cases hj : j ∈ keysOf m
  · rw [if_pos hj]; exact h
  · rw [if_neg hj]
    rw [List.nodup_append]
    refine ⟨h, List.nodup_singleton j, ?_⟩
    intro a ha hb
    rw [List.mem_singleton] at hb
    exact hj (hb ▸ ha)

theorem keysOf_foldl_nodup (f : Nat × Rat → Rat) :
    ∀ (l m : List (Nat × Rat)), (keysOf m).Nodup →
      (keysOf (l.foldl (fun acc p => updCand acc p.1 (f p)) m)).Nodup := by
  intro l
  induction l with
  | nil => intro m h; exact h
  | cons p t ih =>
    intro m h
    rw [List.foldl_cons]
    exact ih _ (keysOf_updCand_nodup m p.1 (f p) h)

theorem keysOf_fuseMap_nodup (vec bm tf : List (Nat × Rat)) (w : Rat) :
    (keysOf (fuseMap vec bm tf w)).Nodup := by
  rw [fuseMap]
  apply keysOf_foldl_nodup
  apply keysOf_foldl_nodup
  apply keysOf_foldl_nodup
  simp [keysOf]

theorem getV_of_mem :
    ∀ (m : List (Nat × Rat)), (keysOf m).Nodup → ∀ p ∈ m, getV m p.1 = p.2 := by
  intro m
  induction m with
  | nil => intro _ p hp; simp at hp
  | cons q t ih =>
    intro h p hp
    obtain ⟨k, s⟩ := q
    rcases List.mem_cons.1 hp with hp | hp
    · subst hp; simp [getV]
    · rw [getV]
      by_cases hk : k = p.1
      · exfalso
        have hmem : p.1 ∈ keysOf t := List.mem_map.2 ⟨p, hp, rfl⟩
        have := (List.nodup_cons.1 h).1
        exact this (hk ▸ hmem)
      · rw [if_neg hk]
        exact ih (List.nodup_cons.1 h).2 p hp

/-! Decomposition of a fused score into its dense and lexical parts, and the
weight-monotonicity core argument (for the fusion step of hybrid_search). -/

theorem sum_map_mul_const {α : Type} (l : List α) (f : α → Rat) (c : Rat) :
    (l.map (fun x => f x * c)).sum = (l.map f).sum * c := by
  induction l with
  | nil => simp
  | cons a t ih => simp [ih]; ring

theorem getV_fuseMap_decomp (vec bm tf : List (Nat × Rat)) (w : Rat) (i : Nat) :
    getV (fuseMap vec bm tf w) i
      = vecSumAt vec i * w + (lexSumAt bm i + lexSumAt tf i) * ((1 - w) / 2) := by
  rw [getV_fuseMap]
  rw [vecSumAt, lexSumAt, lexSumAt]
  rw [show (fun p : Nat × Rat => p.2 * w) = (fun p : Nat × Rat => Prod.snd p * w) from rfl]
  rw [sum_map_mul_const, sum_map_mul_const, sum_map_mul_const]
  ring

theorem lexSumAt_nonneg (l : List (Nat × Rat)) (i : Nat)
    (h : ∀ p ∈ l, 0 ≤ p.2) : 0 ≤ lexSumAt l i := by
  apply List.sum_nonneg
  intro x hx
  rcases List.mem_map.1 hx with ⟨p, hp, hpx⟩
  have hp2 : 0 ≤ p.2 := h p (List.mem_of_mem_filter hp)
  rw [← hpx, normalizeStep]
  by_cases hm : 0 < pyMax (l.map Prod.snd) 1
  · rw [if_pos hm]
    exact div_nonneg hp2 (le_of_lt hm)
  · rw [if_neg hm]

theorem lexSumAt_of_not_mem (l : List (Nat × Rat)) (i : Nat)
    (h : i ∉ l.map Prod.fst) : lexSumAt l i = 0 := by
  have hnil : l.filter (fun p => p.1 = i) = [] := by
    rw [List.filter_eq_nil_iff]
    intro p hp
    simp only [decide_eq_true_eq]
    intro hpi
    exact h (List.mem_map.2 ⟨p, hp, hpi⟩)
  rw [lexSumAt, hnil]
  rfl

theorem weight_mono_core (a b vr w w' : Rat) (hb : 0 ≤ b) (hw0 : 0 < w)
    (hww : w ≤ w') (hw1 : w' ≤ 1)
    (h : vr * w' < a * w' + b * ((1 - w') / 2)) :
    vr * w < a * w + b * ((1 - w) / 2) := by
  by_contra hcon
  push_neg at hcon
  have hw0' : 0 < w' := lt_of_lt_of_le hw0 hww
  nlinarith [mul_nonneg hb (sub_nonneg.2 hww), mul_nonneg hb (sub_nonneg.2 hw1),
    mul_pos hw0 hw0']

theorem beatsCount_eq_countP (vec bm tf : List (Nat × Rat)) (w : Rat) (r : Nat) :
    beatsCount vec bm tf w r
      = (keysOf (fuseMap vec bm tf w)).countP
          (fun k => getV (fuseMap vec bm tf w) r < getV (fuseMap vec bm tf w) k) := by
  rw [beatsCount, keysOf]
  rw [List.countP_map]
  rw [← List.countP_eq_length_filter]
  apply List.countP_congr
  intro p hp
  have := getV_of_mem (fuseMap vec bm tf w) (keysOf_fuseMap_nodup vec bm tf w) p hp
  simp only [Function.comp, decide_eq_true_eq, this]

theorem filter_two_add_map_sum {α : Type} (l : List α) (p : α → Bool) (g : α → Nat) :
    (l.filter p).length * 2 + (l.map g).sum
      = (l.map (fun f => (if p f then 2 else 0) + g f)).sum := by
  induction l with
  | nil => simp
  | cons a t ih =>
    rw [List.filter_cons]
    by_cases h : p a
    · rw [if_pos h]
      simp only [List.length_cons, List.map_cons, List.sum_cons, if_pos h]
      omega
    · rw [if_neg (by simp [h])]
      simp only [List.map_cons, List.sum_cons, if_neg h]
      omega

/-- C5: for every candidate row and raw query string, the re-rank score of
retriever.py:221-238 equals the per-field sum of a 2-point bonus when the
lowercased query is a substring of the lowercased field, plus 1 point per
distinct whitespace token (case-insensitive) shared by the query and the
field — the code computes the same quantity column-wise. -/
theorem rerank_score_fieldwise (q : List Char) (r : Row) :
    rerankScore q r = rerankScoreSpec q r := by
  rw [rerankScore, containScore, overlapScore, rerankScoreSpec]
  exact filter_two_add_map_sum _ _ _

/-- C6: the list returned by `hybrid_search` never has more than `top_k`
entries: the re-ranked candidates are truncated to `min(top_k, 40)`
(retriever.py:300-301) and deduplication only removes rows. -/
theorem hybrid_search_topk_bound (df : List Row) (q : List Char) (top_k : Nat)
    (w : Rat) (fl : Bool) (er : Except Unit (List (List Rat)))
    (fo : Except Unit (List (Int × Rat))) (bl : Bool) (bs : Except Unit (List Rat))
    (tl : Bool) (ts : Except Unit (List Rat)) :
    (hybrid_search df q top_k w fl er fo bl bs tl ts).length ≤ top_k := by
  rw [hybrid_search]
  cases vector_search fl er fo with
  | error e => simp
  | ok vec =>
    exact le_trans (hybrid_core_length_le df q top_k w vec _ _) (Nat.min_le_left _ _)

/-- C10: the list returned by `hybrid_search` never has more than
`min(top_k, 40)` entries, because of the hard-coded cap at
retriever.py:300; in particular the internal caller that requests
`top_k = 80` (services.py:317) receives at most 40 results. -/
theorem hybrid_search_result_cap (df : List Row) (q : List Char) (top_k : Nat)
    (w : Rat) (fl : Bool) (er : Except Unit (List (List Rat)))
    (fo : Except Unit (List (Int × Rat))) (bl : Bool) (bs : Except Unit (List Rat))
    (tl : Bool) (ts : Except Unit (List Rat)) :
    (hybrid_search df q top_k w fl er fo bl bs tl ts).length ≤ min top_k 40
    ∧ (hybrid_search df q 80 w fl er fo bl bs tl ts).length ≤ 40 := by
  constructor
  · rw [hybrid_search]
    cases vector_search fl er fo with
    | error e => simp
    | ok vec => exact hybrid_core_length_le df q top_k w vec _ _
  · rw [hybrid_search]
    cases vector_search fl er fo with
    | error e => simp
    | ok vec => exact hybrid_core_length_le df q 80 w vec _ _

/-- C7: `hybrid_search` is deterministic — with the same query, `top_k`,
`vector_weight`, corpus and external-call outcomes, two calls return the
same ordered list.  In this embedding every source of run-time variation
(embedding service, FAISS, scorers) is an explicit input, so determinism
is functionality over those inputs. -/
theorem hybrid_search_deterministic
    (df₁ df₂ : List Row) (q₁ q₂ : List Char) (k₁ k₂ : Nat) (w₁ w₂ : Rat)
    (fl₁ fl₂ : Bool) (er₁ er₂ : Except Unit (List (List Rat)))
    (fo₁ fo₂ : Except Unit (List (Int × Rat))) (bl₁ bl₂ : Bool)
    (bs₁ bs₂ : Except Unit (List Rat)) (tl₁ tl₂ : Bool)
    (ts₁ ts₂ : Except Unit (List Rat))
    (hdf : df₁ = df₂) (hq : q₁ = q₂) (hk : k₁ = k₂) (hw : w₁ = w₂)
    (hfl : fl₁ = fl₂) (her : er₁ = er₂) (hfo : fo₁ = fo₂) (hbl : bl₁ = bl₂)
    (hbs : bs₁ = bs₂) (htl : tl₁ = tl₂) (hts : ts₁ = ts₂) :
    hybrid_search df₁ q₁ k₁ w₁ fl₁ er₁ fo₁ bl₁ bs₁ tl₁ ts₁
      = hybrid_search df₂ q₂ k₂ w₂ fl₂ er₂ fo₂ bl₂ bs₂ tl₂ ts₂ := by
  subst hdf hq hk hw hfl her hfo hbl hbs htl hts
  rfl

theorem hybrid_search_deterministic_witness :
    hybrid_search exDf exQ 5 (3/5) true (Except.ok [[1]]) (Except.ok [(0, 1)])
        true (Except.ok [1, 2]) true (Except.ok [0, 1])
      = hybrid_search exDf exQ 5 (3/5) true (Except.ok [[1]]) (Except.ok [(0, 1)])
        true (Except.ok [1, 2]) true (Except.ok [0, 1]) :=
  hybrid_search_deterministic exDf exDf exQ exQ 5 5 (3/5) (3/5) true true
    (Except.ok [[1]]) (Except.ok [[1]]) (Except.ok [(0, 1)]) (Except.ok [(0, 1)])
    true true (Except.ok [1, 2]) (Except.ok [1, 2]) true true
    (Except.ok [0, 1]) (Except.ok [0, 1])
    rfl rfl rfl rfl rfl rfl rfl rfl rfl rfl rfl

/-- C9: fusion weighting is monotone in `vector_weight`: for a row `r`
retrieved only by the dense index (absent from the BM25 and TF-IDF result
lists, whose raw scores are nonnegative as produced by BM25Okapi and cosine
similarity), raising the weight from `w` to `w'` (with `0 < w ≤ w' ≤ 1`)
cannot increase the number of fused candidates that strictly outscore `r`,
i.e. cannot worsen the rank of `r` in the fused ordering of
retriever.py:268-296. -/
theorem hybrid_weight_monotone (vec bm tf : List (Nat × Rat)) (w w' : Rat) (r : Nat)
    (hw0 : 0 < w) (hww : w ≤ w') (hw1 : w' ≤ 1)
    (hrv : r ∈ vec.map Prod.fst)
    (hrb : r ∉ bm.map Prod.fst) (hrt : r ∉ tf.map Prod.fst)
    (hbm : ∀ p ∈ bm, 0 ≤ p.2) (htf : ∀ p ∈ tf, 0 ≤ p.2) :
    beatsCount vec bm tf w' r ≤ beatsCount vec bm tf w r := by
  rw [beatsCount_eq_countP, beatsCount_eq_countP]
  have hkeys : keysOf (fuseMap vec bm tf w') = keysOf (fuseMap vec bm tf w) := by
    rw [keysOf_fuseMap, keysOf_fuseMap]
  rw [hkeys]
  apply List.countP_mono_left
  intro k hk
  simp only [decide_eq_true_eq]
  intro h
  rw [getV_fuseMap_decomp, getV_fuseMap_decomp] at h ⊢
  rw [lexSumAt_of_not_mem bm r hrb, lexSumAt_of_not_mem tf r hrt] at h ⊢
  have hb : 0 ≤ lexSumAt bm k + lexSumAt tf k :=
    add_nonneg (lexSumAt_nonneg bm k hbm) (lexSumAt_nonneg tf k htf)
  have h0 : vecSumAt vec r * w'
      < vecSumAt vec k * w' + (lexSumAt bm k + lexSumAt tf k) * ((1 - w') / 2) := by
    simpa using h
  have hfin := weight_mono_core (vecSumAt vec k) (lexSumAt bm k + lexSumAt tf k)
    (vecSumAt vec r) w w' hb hw0 hww hw1 h0
  simpa using hfin

theorem hybrid_weight_monotone_witness :
    (0 : Rat) < 1/2
    ∧ beatsCount [((0 : Nat), (1 : Rat)), (1, 2)] [((1 : Nat), (1 : Rat))] [] 1 0
        ≤ beatsCount [((0 : Nat), (1 : Rat)), (1, 2)] [((1 : Nat), (1 : Rat))] [] (1/2) 0 :=
  ⟨by norm_num,
    hybrid_weight_monotone [((0 : Nat), (1 : Rat)), (1, 2)] [((1 : Nat), (1 : Rat))] []
      (1/2) 1 0 (by norm_num) (by norm_num) (le_refl 1) (by decide) (by decide)
      (by decide) (by decide) (by decide)⟩

/-- C1: no two entries returned by `hybrid_search` share a `group_code`, and
for every group that has a re-ranked candidate (whatever its relation to any
row's exact `koumoku_code`), exactly one representative — the first in
re-rank order — is emitted (retriever.py:305-328). -/
theorem hybrid_search_group_dedup (df : List Row) (q : List Char) (top_k : Nat)
    (w : Rat) (fl : Bool) (er : Except Unit (List (List Rat)))
    (fo : Except Unit (List (Int × Rat))) (bl : Bool) (bs : Except Unit (List Rat))
    (tl : Bool) (ts : Except Unit (List Rat)) :
    ((hybrid_search df q top_k w fl er fo bl bs tl ts).map Entry.group_code).Nodup
    ∧ ∀ vec, vector_search fl er fo = Except.ok vec →
        ∀ g ∈ (rerankedIndices df q top_k w vec (keyword_search bl bs (top_k * 2))
                (tfidf_search tl ts (top_k * 2))).map (fun i => (rowAt df i).group_code),
          ((hybrid_search df q top_k w fl er fo bl bs tl ts).filter
            (fun e => e.group_code = g)).length = 1 := by
  constructor
  · rw [hybrid_search]
    cases vector_search fl er fo with
    | error e => simp
    | ok vec => exact dedupLoop_groups_nodup _ _ _ _
  · intro vec hvec g hg
    rw [hybrid_search, hvec]
    exact dedupLoop_count_one df
      (fuseMap vec (keyword_search bl bs (top_k * 2)) (tfidf_search tl ts (top_k * 2)) w)
      (rerankedIndices df q top_k w vec (keyword_search bl bs (top_k * 2))
        (tfidf_search tl ts (top_k * 2))) [] g (List.not_mem_nil g) hg

theorem hybrid_search_group_dedup_witness :
    ((hybrid_search exDf exQ 1 (3/5) false (Except.ok []) (Except.ok [])
        true (Except.ok [2, 1]) false (Except.ok [])).map Entry.group_code).Nodup
    ∧ ((hybrid_search exDf exQ 1 (3/5) false (Except.ok []) (Except.ok [])
        true (Except.ok [2, 1]) false (Except.ok [])).filter
          (fun e => e.group_code = exRow1.group_code)).length = 1 :=
  ⟨(hybrid_search_group_dedup exDf exQ 1 (3/5) false (Except.ok []) (Except.ok [])
      true (Except.ok [2, 1]) false (Except.ok [])).1,
   (hybrid_search_group_dedup exDf exQ 1 (3/5) false (Except.ok []) (Except.ok [])
      true (Except.ok [2, 1]) false (Except.ok [])).2 [] rfl
      exRow1.group_code (by
        norm_num [rerankedIndices, rerank_results, candidateIndices, fuseMap,
          updCand, normalizeStep, pyMax, keyword_search, tfidf_search, sortKeyDesc,
          List.insertionSort, List.orderedInsert, rerankScore, containScore,
          overlapScore, textFields, interCount, tokensOf, splitWs, splitWsAux,
          lower, containsSub, leadsWith, rowAt, exDf, exRow1, exRow2, exQ,
          List.enum, List.enumFrom]
        decide)⟩

/-- C2 counterexample: at retriever.py:277 the default of 1 applies only to
an EMPTY result list (`max([...], default=1)`), not whenever the maximum is
≤ 0; for a nonempty list with maximum ≤ 0 (here `[(0, -1)]`) the code takes
the `else 0` branch at line 279, so the fused contribution is 0, whereas the
claimed formula `raw / 1 * keyword_weight` is -1/5 ≠ 0. -/
theorem bm25_default_counterexample :
    pyMax ([((0 : Nat), (-1 : Rat))].map Prod.snd) 1 ≤ 0
    ∧ getV (fuseMap [] [((0 : Nat), (-1 : Rat))] [] (3/5)) 0 = 0
    ∧ (-1 : Rat) / 1 * ((1 - 3/5) / 2) ≠ 0 := by
  refine ⟨by norm_num [pyMax],
    by norm_num [fuseMap, updCand, normalizeStep, pyMax, getV], by norm_num⟩

/-- C2 amended: every BM25 contribution to a fused score is the raw score
divided by the per-query maximum BM25 score when that maximum is positive,
and 0 when the maximum is ≤ 0, each multiplied by `(1 - vector_weight) / 2`;
the default of 1 for the maximum applies only when the BM25 result list is
empty. -/
theorem bm25_normalization_amended (vec bm tf : List (Nat × Rat)) (w : Rat) (i : Nat) :
    (getV (fuseMap vec bm tf w) i
       = vecSumAt vec i * w + (lexSumAt bm i + lexSumAt tf i) * ((1 - w) / 2))
    ∧ (bm = [] → pyMax (bm.map Prod.snd) 1 = 1)
    ∧ (pyMax (bm.map Prod.snd) 1 ≤ 0 →
        ∀ s : Rat, normalizeStep (pyMax (bm.map Prod.snd) 1) s = 0)
    ∧ (0 < pyMax (bm.map Prod.snd) 1 →
        ∀ s : Rat, normalizeStep (pyMax (bm.map Prod.snd) 1) s
          = s / pyMax (bm.map Prod.snd) 1) := by
  refine ⟨getV_fuseMap_decomp vec bm tf w i, ?_, ?_, ?_⟩
  · intro h; subst h; rfl
  · intro h s; rw [normalizeStep, if_neg (not_lt.2 h)]
  · intro h s; rw [normalizeStep, if_pos h]

theorem bm25_normalization_amended_witness :
    (0 : Rat) < pyMax ([((0 : Nat), (2 : Rat))].map Prod.snd) 1
    ∧ normalizeStep (pyMax ([((0 : Nat), (2 : Rat))].map Prod.snd) 1) 1
        = 1 / pyMax ([((0 : Nat), (2 : Rat))].map Prod.snd) 1 :=
  ⟨by norm_num [pyMax],
   (bm25_normalization_amended [] [((0 : Nat), (2 : Rat))] [] 0 0).2.2.2
     (by norm_num [pyMax]) 1⟩

/-- C3 counterexample: an exception raised by the FAISS search inside
`vector_search` (retriever.py:156 has no try/except) is re-raised by
`f_vec.result()` inside `hybrid_search` and caught only by the outer handler
(retriever.py:339-341), which returns an EMPTY overall result even though the
BM25 sub-search has results; by contrast an embedding-call failure does
degrade to lexical-only results. -/
theorem vector_search_exception_counterexample :
    hybrid_search exDf exQ 1 (3/5) true (Except.ok [[1]]) (Except.error ())
        true (Except.ok [2, 1]) false (Except.ok []) = []
    ∧ keyword_search true (Except.ok [2, 1]) 2 ≠ []
    ∧ hybrid_search exDf exQ 1 (3/5) true (Except.error ()) (Except.ok [])
        true (Except.ok [2, 1]) false (Except.ok []) ≠ [] := by
  refine ⟨rfl, by decide, by
    norm_num [hybrid_search, vector_search, get_embeddings, hybrid_core,
      dedupLoop, rerankedIndices, rerank_results, candidateIndices, fuseMap,
      updCand, normalizeStep, pyMax, keyword_search, tfidf_search, sortKeyDesc,
      List.insertionSort, List.orderedInsert, rerankScore, containScore,
      overlapScore, textFields, interCount, tokensOf, splitWs, splitWsAux,
      lower, containsSub, leadsWith, rowAt, exDf, exRow1, exRow2, exQ, getV,
      List.enum, List.enumFrom]⟩

/-- C3 amended: exceptions in the BM25 and TF-IDF sub-searches are caught at
their component boundary and become empty sub-results; an embedding-call
error or an empty embedding makes `vector_search` return an empty list
without raising, and `hybrid_search` then fuses the remaining strategies;
but an exception from the FAISS index search propagates out of
`vector_search` and is caught only by `hybrid_search`'s outer handler, which
returns an empty overall result instead of lexical-only results. -/
theorem search_error_boundaries (df : List Row) (q : List Char) (top_k : Nat)
    (w : Rat) (fl : Bool) (er : Except Unit (List (List Rat)))
    (fo : Except Unit (List (Int × Rat))) (bl tl : Bool)
    (bs ts : Except Unit (List Rat)) :
    (∀ fo2, vector_search fl (Except.error ()) fo2 = Except.ok [])
    ∧ (∀ fo2, vector_search fl (Except.ok []) fo2 = Except.ok [])
    ∧ keyword_search bl (Except.error ()) (top_k * 2) = []
    ∧ tfidf_search tl (Except.error ()) (top_k * 2) = []
    ∧ (∀ vec, vector_search fl er fo = Except.ok vec →
        hybrid_search df q top_k w fl er fo bl bs tl ts
          = hybrid_core df q top_k w vec (keyword_search bl bs (top_k * 2))
              (tfidf_search tl ts (top_k * 2)))
    ∧ (vector_search fl er fo = Except.error () →
        hybrid_search df q top_k w fl er fo bl bs tl ts = []) := by
  refine ⟨?_, ?_, ?_, ?_, ?_, ?_⟩
  · intro fo2; cases fl <;> simp [vector_search, get_embeddings]
  · intro fo2; cases fl <;> simp [vector_search, get_embeddings]
  · cases bl <;> simp [keyword_search]
  · cases tl <;> simp [tfidf_search]
  · intro vec hvec; rw [hybrid_search, hvec]
  · intro hvec; rw [hybrid_search, hvec]

theorem search_error_boundaries_witness :
    vector_search true (Except.error ()) (Except.ok [((0 : Int), (1 : Rat))])
        = Except.ok []
    ∧ hybrid_search exDf exQ 2 (3/5) true (Except.ok [[1]]) (Except.error ())
        true (Except.ok [2, 1]) false (Except.ok []) = [] :=
  ⟨(search_error_boundaries exDf exQ 2 (3/5) true (Except.ok [[1]])
      (Except.error ()) true false (Except.ok [2, 1]) (Except.ok [])).1
      (Except.ok [((0 : Int), (1 : Rat))]),
   (search_error_boundaries exDf exQ 2 (3/5) true (Except.ok [[1]])
      (Except.error ()) true false (Except.ok [2, 1]) (Except.ok [])).2.2.2.2.2
      rfl⟩

/-- C8: `load_vector_database` is idempotent — when the corpus table and the
dense index are already present it returns success immediately with the state
unchanged and without consulting the fetch outcome at all — and a failed or
malformed artifact fetch is reported as a boolean `false`, not an exception
(every fallible call in the load path catches its own exceptions, which this
embedding reflects by total return types). -/
theorem load_vector_database_contract (s s2 : RetState)
    (o₁ o₂ : Except Unit (List RawRow × Unit)) (k₁ k₂ : Except Unit (Unit × Unit))
    (h1 : s.df.isSome = true) (h2 : s.faiss_index.isSome = true)
    (h3 : s2.df.isSome = false ∨ s2.faiss_index.isSome = false) :
    load_vector_database o₁ k₁ s = (s, true)
    ∧ load_vector_database o₁ k₁ s = load_vector_database o₂ k₂ s
    ∧ (load_vector_database (Except.error ()) k₁ s2).2 = false := by
  have hload : (s.df.isSome && s.faiss_index.isSome) = true := by
    rw [h1, h2]; rfl
  refine ⟨?_, ?_, ?_⟩
  · rw [load_vector_database, if_pos hload]
  · rw [load_vector_database, if_pos hload, load_vector_database, if_pos hload]
  · have hnl : ¬(s2.df.isSome && s2.faiss_index.isSome) = true := by
      rcases h3 with h | h <;> simp [h]
    rw [load_vector_database, if_neg hnl]
    simp [load_db_from_github]

theorem load_vector_database_contract_witness :
    load_vector_database (Except.ok ([], ())) (Except.ok ((), ())) exLoadedState
        = (exLoadedState, true)
    ∧ (load_vector_database (Except.error ()) (Except.ok ((), ())) exEmptyState).2
        = false :=
  ⟨(load_vector_database_contract exLoadedState exEmptyState (Except.ok ([], ()))
      (Except.ok ([], ())) (Except.ok ((), ())) (Except.ok ((), ())) rfl rfl
      (Or.inl rfl)).1,
   (load_vector_database_contract exLoadedState exEmptyState (Except.error ())
      (Except.ok ([], ())) (Except.ok ((), ())) (Except.ok ((), ())) rfl rfl
      (Or.inl rfl)).2.2⟩

end StatSearch
